import Mathlib

/-!
Verification of the smart-home voice assistant core: energy-based utterance
segmentation (src/audio_interface.py), the turn arbiter and reply branch of
the main loop (src/voice_assistant.py), the file-backed local message broker
(src/local_mqtt_broker.py), the MQTT client (src/mqtt_client.py), and the
device-state store (src/device_state.py).

Modelling conventions:
- numpy int16 arithmetic is modelled on ℤ with explicit wrapping into
  [-32768, 32768) (two's-complement wraparound, as numpy does on overflow);
- wall-clock times (time.time()) are rationals;
- the float RMS energy is handled through its square: the code only ever
  compares energy against a threshold, and for a nonnegative threshold t,
  sqrt m > t iff m > t * t, so every comparison is exact in ℚ;
- audio frames are lists of int16 samples (a frame of n samples is 2 * n
  bytes, so byte-length statements are equivalent to sample-count statements
  scaled by 2 on both sides).
-/

namespace SmartHome

/-- Two's-complement wrap of an integer into the signed 16-bit range
[-32768, 32768), as numpy int16 arithmetic does on overflow
(audio_interface.py line 68 squares an int16 array in int16 arithmetic). -/
def wrapInt16 (n : ℤ) : ℤ := (n + 32768) % 65536 - 32768

/-- Embedding of AudioInterface._calculate_energy (audio_interface.py lines
61-72), squared.  The source computes mean_sq = np.mean(audio_data ** 2) on an
int16 array (squares wrap modulo 2^16), returns 0 for an empty frame, returns
0 when mean_sq < 0 (possible through wraparound) or NaN (unreachable for a
nonempty array in exact arithmetic), else sqrt(mean_sq).  This definition is
the square of the returned energy; the 0 branches are fixed points of
squaring. -/
def calculateEnergySq (data : List ℤ) : ℚ :=
  if data = [] then 0
  else if (((data.map fun x => wrapInt16 (x * x)).sum : ℤ) : ℚ) / (data.length : ℚ) < 0 then 0
  else (((data.map fun x => wrapInt16 (x * x)).sum : ℤ) : ℚ) / (data.length : ℚ)

/-- Spec-side definition, for comparison with the code: the mean of the
squared sample magnitudes, i.e. the square of the root-mean-square of the
frame's sample magnitudes, with an empty frame giving 0. -/
def rmsSqSpec (data : List ℤ) : ℚ :=
  if data = [] then 0
  else ((data.map fun x : ℤ => |(x : ℚ)| ^ 2).sum) / (data.length : ℚ)

lemma wrapInt16_eq_self {n : ℤ} (h0 : 0 ≤ n) (h1 : n ≤ 32767) : wrapInt16 n = n := by
  unfold wrapInt16
  rw [Int.emod_eq_of_lt (by omega) (by omega)]
  omega

/-- Claim C9: for every audio frame of 16-bit PCM samples the computed energy
equals the root-mean-square of the frame's sample magnitudes, degenerate
results (empty frame; the NaN branch is unreachable in exact arithmetic)
yield energy 0, and the squaring is performed in 16-bit integer arithmetic
(modulo 2^16 wraparound) before averaging.  Stated on squared energies:
(1) the empty frame gives 0; (2) whenever no sample's square overflows int16,
the computed squared energy equals the true mean of squared magnitudes (so
the energy is the true RMS of the sample magnitudes); (3) in general the
computed squared energy is the int16-wrapped mean square clamped at 0 from
below. -/
theorem calculate_energy_rms (data : List ℤ) :
    calculateEnergySq [] = 0
    ∧ ((∀ x ∈ data, x * x ≤ 32767) → data ≠ [] → calculateEnergySq data = rmsSqSpec data)
    ∧ (data ≠ [] →
        calculateEnergySq data
          = max 0 ((((data.map fun x => wrapInt16 (x * x)).sum : ℤ) : ℚ) / (data.length : ℚ))) := by
  refine ⟨by simp [calculateEnergySq], ?_, ?_⟩
  · intro hsmall hne
    have hmap : data.map (fun x => wrapInt16 (x * x)) = data.map (fun x => x * x) := by
      apply List.map_congr_left
      intro x hx
      exact wrapInt16_eq_self (mul_self_nonneg x) (hsmall x hx)
    have hsum : (((data.map fun x => x * x).sum : ℤ) : ℚ)
        = (data.map fun x : ℤ => |(x : ℚ)| ^ 2).sum := by
      rw [Int.cast_list_sum, List.map_map]
      apply congrArg
      apply List.map_congr_left
      intro x _
      show ((x * x : ℤ) : ℚ) = |(x : ℚ)| ^ 2
      push_cast
      rw [sq_abs]
      ring
    have hnn : (0 : ℚ) ≤ (((data.map fun x => x * x).sum : ℤ) : ℚ) / (data.length : ℚ) := by
      apply div_nonneg
      · rw [hsum]
        apply List.sum_nonneg
        intro y hy
        obtain ⟨x, _, rfl⟩ := List.mem_map.mp hy
        positivity
      · positivity
    rw [calculateEnergySq, rmsSqSpec, if_neg hne, if_neg hne, hmap, if_neg (not_lt.mpr hnn), hsum]
  · intro hne
    rw [calculateEnergySq, if_neg hne]
    by_cases h : (((data.map fun x => wrapInt16 (x * x)).sum : ℤ) : ℚ) / (data.length : ℚ) < 0
    · rw [if_pos h, max_eq_left h.le]
    · rw [if_neg h, max_eq_right (not_lt.mp h)]

/-- Witness for C9 at the concrete frame [3, 4]: no square overflows, so the
computed squared energy equals the true mean square (9 + 16) / 2. -/
theorem calculate_energy_rms_witness :
    calculateEnergySq [3, 4] = rmsSqSpec [3, 4] :=
  (calculate_energy_rms [3, 4]).2.1 (by decide) (by decide)

/-- Embedding of the comparison energy > self.energy_threshold made by
listen_for_speech (audio_interface.py lines 107 and 119).  The energy is
sqrt of calculateEnergySq; for a threshold t, sqrt m > t holds iff t < 0
(energies are nonnegative) or m > t * t, so this Boolean is exactly the
source comparison, expressed on squares. -/
def energyExceeds (data : List ℤ) (thr : ℚ) : Bool :=
  decide (thr < 0) || decide (thr * thr < calculateEnergySq data)

/-- One read of the capture loop: the value of the pause flag observed at
line 94, the frame bytes read at line 91 (as int16 samples), and the value
time.time() would return during this iteration (at most one call to
time.time() is reachable per iteration, at line 123 or line 124). -/
structure ReadEvent where
  paused : Bool
  data : List ℤ
  time : ℚ
deriving DecidableEq

/-- Per-iteration state of listen_for_speech (audio_interface.py lines
85-87): the frames buffer, silence_start, and is_speaking. -/
structure SegState where
  frames : List (List ℤ)
  silenceStart : Option ℚ
  isSpeaking : Bool
deriving DecidableEq

/-- Initial segmenter state: frames = [], silence_start = None,
is_speaking = False (audio_interface.py lines 85-87). -/
def initSegState : SegState := ⟨[], none, false⟩

/-- One iteration of the while-loop body of listen_for_speech
(audio_interface.py lines 89-134), for a successful read: returns the next
state and the utterance yielded by this iteration, if any. -/
def stepSeg (thr limit : ℚ) (s : SegState) (e : ReadEvent) : SegState × Option (List ℤ) :=
  if e.paused then
    (if s.isSpeaking then initSegState else s, none)
  else if !s.isSpeaking then
    if energyExceeds e.data thr then
      ({ frames := [e.data], silenceStart := none, isSpeaking := true }, none)
    else (s, none)
  else
    if energyExceeds e.data thr then
      ({ frames := s.frames ++ [e.data], silenceStart := none, isSpeaking := true }, none)
    else
      match s.silenceStart with
      | none => ({ frames := s.frames ++ [e.data], silenceStart := some e.time, isSpeaking := true }, none)
      | some t0 =>
        if limit < e.time - t0 then (initSegState, some (s.frames ++ [e.data]).flatten)
        else ({ frames := s.frames ++ [e.data], silenceStart := some t0, isSpeaking := true }, none)

/-- The capture loop run over a finite list of reads: final state and the
list of yielded utterances, in order. -/
def runSeg (thr limit : ℚ) : SegState → List ReadEvent → SegState × List (List ℤ)
  | s, [] => (s, [])
  | s, e :: es =>
    ((runSeg thr limit (stepSeg thr limit s e).1 es).1,
     (stepSeg thr limit s e).2.toList ++ (runSeg thr limit (stepSeg thr limit s e).1 es).2)

lemma runSeg_nil (thr limit : ℚ) (s : SegState) : runSeg thr limit s [] = (s, []) := rfl

lemma runSeg_cons (thr limit : ℚ) (s : SegState) (e : ReadEvent) (es : List ReadEvent) :
    runSeg thr limit s (e :: es)
      = ((runSeg thr limit (stepSeg thr limit s e).1 es).1,
         (stepSeg thr limit s e).2.toList ++ (runSeg thr limit (stepSeg thr limit s e).1 es).2) := rfl

lemma runSeg_append (thr limit : ℚ) (xs ys : List ReadEvent) (s : SegState) :
    runSeg thr limit s (xs ++ ys)
      = ((runSeg thr limit (runSeg thr limit s xs).1 ys).1,
         (runSeg thr limit s xs).2 ++ (runSeg thr limit (runSeg thr limit s xs).1 ys).2) := by
  induction xs generalizing s with
  | nil => simp [runSeg]
  | cons e es ih =>
    simp only [List.cons_append, runSeg_cons, ih, List.append_assoc]

/-- While speaking, a run of above-threshold unpaused frames is appended to
the buffer, no utterance is emitted, and the silence timer stays clear. -/
lemma runSeg_speaking_loud (thr limit : ℚ) (qs : List ReadEvent) (buf : List (List ℤ))
    (h : ∀ e ∈ qs, e.paused = false ∧ energyExceeds e.data thr = true) :
    runSeg thr limit ⟨buf, none, true⟩ qs
      = (⟨buf ++ qs.map ReadEvent.data, none, true⟩, []) := by
  induction qs generalizing buf with
  | nil => simp [runSeg]
  | cons e es ih =>
    obtain ⟨hp, ha⟩ := h e (by simp)
    rw [runSeg_cons]
    have hstep : stepSeg thr limit ⟨buf, none, true⟩ e
        = (⟨buf ++ [e.data], none, true⟩, none) := by
      simp [stepSeg, hp, ha]
    rw [hstep]
    simp only [Option.toList_none, List.nil_append]
    rw [ih (buf ++ [e.data]) fun x hx => h x (by simp [hx])]
    simp

/-- While speaking with the silence timer armed at t0, a run of
below-threshold unpaused frames none of which exceeds the silence limit is
appended to the buffer with no emission, and the timer stays at t0. -/
lemma runSeg_speaking_wait (thr limit : ℚ) (qs : List ReadEvent) (buf : List (List ℤ)) (t0 : ℚ)
    (h : ∀ e ∈ qs, e.paused = false ∧ energyExceeds e.data thr = false ∧ e.time - t0 ≤ limit) :
    runSeg thr limit ⟨buf, some t0, true⟩ qs
      = (⟨buf ++ qs.map ReadEvent.data, some t0, true⟩, []) := by
  induction qs generalizing buf with
  | nil => simp [runSeg]
  | cons e es ih =>
    obtain ⟨hp, ha, ht⟩ := h e (by simp)
    rw [runSeg_cons]
    have hstep : stepSeg thr limit ⟨buf, some t0, true⟩ e
        = (⟨buf ++ [e.data], some t0, true⟩, none) := by
      simp [stepSeg, hp, ha, if_neg (not_lt.mpr ht)]
    rw [hstep]
    simp only [Option.toList_none, List.nil_append]
    rw [ih (buf ++ [e.data]) fun x hx => (h x (by simp [hx]))]
    simp

/-- In the idle state, below-threshold unpaused frames are discarded. -/
lemma runSeg_idle_quiet (thr limit : ℚ) (qs : List ReadEvent)
    (h : ∀ e ∈ qs, e.paused = false ∧ energyExceeds e.data thr = false) :
    runSeg thr limit initSegState qs = (initSegState, []) := by
  induction qs with
  | nil => simp [runSeg]
  | cons e es ih =>
    obtain ⟨hp, ha⟩ := h e (by simp)
    rw [runSeg_cons]
    have hstep : stepSeg thr limit initSegState e = (initSegState, none) := by
      simp [stepSeg, hp, ha, initSegState]
    rw [hstep]
    simp only [Option.toList_none, List.nil_append]
    rw [ih fun x hx => h x (by simp [hx])]

/-- Entering the speaking state from idle on an above-threshold frame seeds
the buffer with the triggering frame (audio_interface.py lines 107-111). -/
lemma stepSeg_idle_enter (thr limit : ℚ) (e : ReadEvent)
    (hp : e.paused = false) (ha : energyExceeds e.data thr = true) :
    stepSeg thr limit initSegState e = (⟨[e.data], none, true⟩, none) := by
  simp [stepSeg, hp, ha, initSegState]

/-- Speaking phase that ends in a silence gap: from a speaking state with a
clear silence timer, a first below-threshold frame arms the timer, further
below-threshold frames within the silence limit accumulate, the frame that
exceeds the limit triggers emission of the joined buffer, and trailing
below-threshold frames are discarded in the idle state. -/
lemma runSeg_silence_gap (thr limit : ℚ) (buf : List (List ℤ))
    (s0 trig : ReadEvent) (pre post : List ReadEvent)
    (hquiet : ∀ e ∈ s0 :: pre ++ trig :: post,
        e.paused = false ∧ energyExceeds e.data thr = false)
    (hpre : ∀ e ∈ pre, e.time - s0.time ≤ limit)
    (htrig : limit < trig.time - s0.time) :
    runSeg thr limit ⟨buf, none, true⟩ (s0 :: (pre ++ trig :: post))
      = (initSegState, [(buf ++ [s0.data] ++ pre.map ReadEvent.data ++ [trig.data]).flatten]) := by
  obtain ⟨hp0, ha0⟩ := hquiet s0 (by simp)
  rw [runSeg_cons]
  have hstep0 : stepSeg thr limit ⟨buf, none, true⟩ s0
      = (⟨buf ++ [s0.data], some s0.time, true⟩, none) := by
    simp [stepSeg, hp0, ha0]
  rw [hstep0]
  simp only [Option.toList_none, List.nil_append]
  rw [runSeg_append]
  rw [runSeg_speaking_wait thr limit pre (buf ++ [s0.data]) s0.time
    (fun x hx => ⟨(hquiet x (by simp [hx])).1, (hquiet x (by simp [hx])).2, hpre x hx⟩)]
  simp only
  rw [runSeg_cons]
  obtain ⟨hpt, hat⟩ := hquiet trig (by simp)
  have hstept : stepSeg thr limit ⟨buf ++ [s0.data] ++ pre.map ReadEvent.data, some s0.time, true⟩ trig
      = (initSegState, some (buf ++ [s0.data] ++ pre.map ReadEvent.data ++ [trig.data]).flatten) := by
    simp [stepSeg, hpt, hat, if_pos htrig]
  rw [hstept]
  rw [runSeg_idle_quiet thr limit post (fun x hx => hquiet x (by simp [hx]))]
  simp

/-- Claim C1: for a frame sequence, read unpaused throughout, consisting of a
nonempty run of contiguous above-threshold frames followed by a run of
below-threshold frames whose span exceeds the silence limit (pre lies within
the limit of the first silent frame s0 and trig exceeds it), listen_for_speech
emits exactly one utterance; its length equals the sum of the lengths of the
frames from the first above-threshold frame through the last frame read
before the emission, i.e. through the frame trig at which the silence gap is
detected (the source appends every frame read while speaking, lines 110 and
117 of audio_interface.py, so the buffered silent frames up to the detection
point are part of the utterance).  Lengths are in samples; byte lengths are
both sides multiplied by 2. -/
theorem segmentation_correctness (thr limit : ℚ) (loud pre post : List ReadEvent)
    (s0 trig : ReadEvent)
    (hloud : loud ≠ [])
    (hla : ∀ e ∈ loud, e.paused = false ∧ energyExceeds e.data thr = true)
    (hquiet : ∀ e ∈ s0 :: pre ++ trig :: post,
        e.paused = false ∧ energyExceeds e.data thr = false)
    (hpre : ∀ e ∈ pre, e.time - s0.time ≤ limit)
    (htrig : limit < trig.time - s0.time) :
    (runSeg thr limit initSegState (loud ++ s0 :: (pre ++ trig :: post))).2
        = [((loud ++ s0 :: pre ++ [trig]).map ReadEvent.data).flatten]
    ∧ ((loud ++ s0 :: pre ++ [trig]).map ReadEvent.data).flatten.length
        = ((loud ++ s0 :: pre ++ [trig]).map fun e => e.data.length).sum := by
  constructor
  · obtain ⟨l, ls, rfl⟩ := List.exists_cons_of_ne_nil hloud
    obtain ⟨hpl, hal⟩ := hla l (by simp)
    rw [List.cons_append, runSeg_cons, stepSeg_idle_enter thr limit l hpl hal]
    simp only [Option.toList_none, List.nil_append]
    rw [runSeg_append]
    rw [runSeg_speaking_loud thr limit ls [l.data] (fun x hx => hla x (by simp [hx]))]
    simp only
    rw [runSeg_silence_gap thr limit ([l.data] ++ ls.map ReadEvent.data) s0 trig pre post
      hquiet hpre htrig]
    simp [List.map_append]
  · rw [List.length_flatten, List.map_map]
    rfl

/-- Witness for C1: threshold 30, silence limit 1; one loud frame [100] at
time 0 (squared energy 10000 > 900), a first silent frame [1] at time 1, the
trigger frame [2] at time 3 (gap 2 > 1), and one trailing silent frame [0] at
time 4.  Exactly the utterance [100, 1, 2] is emitted and its length 3 is the
sum of the three frame lengths. -/
theorem segmentation_correctness_witness :
    (runSeg 30 1 initSegState
        [⟨false, [100], 0⟩, ⟨false, [1], 1⟩, ⟨false, [2], 3⟩, ⟨false, [0], 4⟩]).2
      = [[100, 1, 2]] := by
  have h := segmentation_correctness 30 1 [⟨false, [100], 0⟩] [] [⟨false, [0], 4⟩]
    ⟨false, [1], 1⟩ ⟨false, [2], 3⟩ (by simp)
    (by intro e he; simp at he; subst he
        exact ⟨rfl, by norm_num [energyExceeds, calculateEnergySq, wrapInt16]⟩)
    (by intro e he; simp at he
        rcases he with h | h | h <;> subst h <;>
          exact ⟨rfl, by norm_num [energyExceeds, calculateEnergySq, wrapInt16]⟩)
    (by simp) (by norm_num)
  simpa using h.1

/-- Claim C3, part of the statement as one theorem: (1) a paused read while
speaking drops the buffered frames, emits nothing and forces the idle initial
state (audio_interface.py lines 94-101), and (2) a run of reads all made
while the pause flag is set emits no utterance at all, from any state. -/
theorem pause_suppression (thr limit : ℚ) (s : SegState) (e : ReadEvent)
    (es : List ReadEvent)
    (hp : e.paused = true) (hs : s.isSpeaking = true)
    (hall : ∀ x ∈ es, x.paused = true) :
    stepSeg thr limit s e = (initSegState, none)
    ∧ (runSeg thr limit s (e :: es)).2 = [] := by
  have hstep : stepSeg thr limit s e = (initSegState, none) := by
    simp [stepSeg, hp, hs]
  refine ⟨hstep, ?_⟩
  rw [runSeg_cons, hstep]
  simp only [Option.toList_none, List.nil_append]
  have hgen : ∀ (qs : List ReadEvent) (t : SegState), (∀ x ∈ qs, x.paused = true) →
      (runSeg thr limit t qs).2 = [] := by
    intro qs
    induction qs with
    | nil => intro t _; simp [runSeg]
    | cons q qs ih =>
      intro t hq
      rw [runSeg_cons]
      have hqp : q.paused = true := (hq q (by simp))
      have : (stepSeg thr limit t q).2 = none := by
        simp [stepSeg, hqp]
      rw [this]
      simp only [Option.toList_none, List.nil_append]
      exact ih _ fun x hx => hq x (by simp [hx])
  exact hgen es initSegState hall

/-- Witness for C3: from a speaking state holding one buffered frame, a
paused read at time 0 followed by another paused read at time 1 emits
nothing, and the first paused read resets the segmenter to its initial idle
state. -/
theorem pause_suppression_witness :
    stepSeg 30 1 ⟨[[7]], none, true⟩ ⟨true, [5], 0⟩ = (initSegState, none)
    ∧ (runSeg 30 1 ⟨[[7]], none, true⟩ [⟨true, [5], 0⟩, ⟨true, [6], 1⟩]).2 = [] :=
  pause_suppression 30 1 ⟨[[7]], none, true⟩ ⟨true, [5], 0⟩ [⟨true, [6], 1⟩]
    rfl rfl (by simp)

/-- Steps of the reply branch of the main loop (voice_assistant.py lines
188-208), in program order: update last_interaction_time (line 190), pause the
segmenter (line 195), call text_to_speech (line 197), and -- only when a file
was produced -- play it (line 199) and remove the temporary file (lines
200-204); finally resume the segmenter (line 207).  Failures inside
text_to_speech and play_audio_file are caught inside those collaborators
(speech_handler.py lines 96-101 and 108-149): a synthesis error surfaces as a
None return, a playback error is logged and swallowed, so neither raises into
the main loop. -/
inductive ReplyAction where
  | setLastInteraction
  | pauseListen
  | synthesize
  | playback
  | removeTmp
  | resumeListen
deriving DecidableEq

/-- The two pieces of main-loop state the reply branch mutates: the
segmenter pause flag and last_interaction_time. -/
structure AssistantAudioState where
  paused : Bool
  lastInteraction : ℚ
deriving DecidableEq

/-- The action sequence executed by the reply branch for a given
text_to_speech result: playback and file removal happen only when a file was
produced (voice_assistant.py line 198). -/
def replyActions (ttsFile : Option String) : List ReplyAction :=
  [ReplyAction.setLastInteraction, ReplyAction.pauseListen, ReplyAction.synthesize]
    ++ (match ttsFile with
        | some _ => [ReplyAction.playback, ReplyAction.removeTmp]
        | none => [])
    ++ [ReplyAction.resumeListen]

/-- Effect of each reply-branch action on the mutable state.  The value now
is the time observed at voice_assistant.py line 190. -/
def applyReplyAction (now : ℚ) (st : AssistantAudioState) : ReplyAction → AssistantAudioState
  | ReplyAction.setLastInteraction => { st with lastInteraction := now }
  | ReplyAction.pauseListen => { st with paused := true }
  | ReplyAction.resumeListen => { st with paused := false }
  | _ => st

/-- Embedding of voice_assistant.py lines 188-208: the branch runs only when
should_reply is set and response_text is nonempty (line 188); it returns the
final state and the executed action trace. -/
def replyBranch (st : AssistantAudioState) (now : ℚ) (shouldReply : Bool)
    (responseText : String) (ttsFile : Option String) :
    AssistantAudioState × List ReplyAction :=
  if shouldReply && !(responseText == "") then
    ((replyActions ttsFile).foldl (applyReplyAction now) st, replyActions ttsFile)
  else (st, [])

/-- Claim C4: in every reply branch, TTS synthesis and playback are bracketed
by pause and resume on the segmenter; resume is executed for every outcome of
synthesis and playback (in the source, synthesis failure surfaces as a None
file and playback failure is swallowed inside play_audio_file, so control
always reaches audio.resume()); and last_interaction_time is set to the
current time before playback starts.  Concretely: the trace ends with resume,
the final state is unpaused with lastInteraction = now, and whenever playback
occurs, both the time update and the pause precede it and resume follows
it. -/
theorem reply_bracketing (st : AssistantAudioState) (now : ℚ)
    (responseText : String) (ttsFile : Option String) (hne : responseText ≠ "") :
    (replyBranch st now true responseText ttsFile).2.getLast? = some ReplyAction.resumeListen
    ∧ (replyBranch st now true responseText ttsFile).1.paused = false
    ∧ (replyBranch st now true responseText ttsFile).1.lastInteraction = now
    ∧ (ReplyAction.playback ∈ (replyBranch st now true responseText ttsFile).2 →
        ∃ pref suff,
          (replyBranch st now true responseText ttsFile).2
              = pref ++ ReplyAction.playback :: suff
          ∧ ReplyAction.setLastInteraction ∈ pref
          ∧ ReplyAction.pauseListen ∈ pref
          ∧ ReplyAction.resumeListen ∈ suff) := by
  have hcond : (true && !(responseText == "")) = true := by
    simp [hne]
  cases ttsFile with
  | none =>
    refine ⟨?_, ?_, ?_, ?_⟩ <;>
      simp [replyBranch, hcond, replyActions, applyReplyAction]
  | some f =>
    refine ⟨?_, ?_, ?_, ?_⟩
    · simp [replyBranch, hcond, replyActions]
    · simp [replyBranch, hcond, replyActions, applyReplyAction]
    · simp [replyBranch, hcond, replyActions, applyReplyAction]
    · intro _
      refine ⟨[ReplyAction.setLastInteraction, ReplyAction.pauseListen, ReplyAction.synthesize],
        [ReplyAction.removeTmp, ReplyAction.resumeListen], ?_, by simp, by simp, by simp⟩
      simp [replyBranch, hcond, replyActions]

/-- Witness for C4 at a concrete input: reply text 好的, a produced TTS file,
initial state paused with lastInteraction 5, current time 7. -/
theorem reply_bracketing_witness :
    (replyBranch ⟨true, 5⟩ 7 true "好的" (some "response.mp3")).2.getLast?
        = some ReplyAction.resumeListen
    ∧ (replyBranch ⟨true, 5⟩ 7 true "好的" (some "response.mp3")).1.paused = false
    ∧ (replyBranch ⟨true, 5⟩ 7 true "好的" (some "response.mp3")).1.lastInteraction = 7
    ∧ (ReplyAction.playback ∈ (replyBranch ⟨true, 5⟩ 7 true "好的" (some "response.mp3")).2 →
        ∃ pref suff,
          (replyBranch ⟨true, 5⟩ 7 true "好的" (some "response.mp3")).2
              = pref ++ ReplyAction.playback :: suff
          ∧ ReplyAction.setLastInteraction ∈ pref
          ∧ ReplyAction.pauseListen ∈ pref
          ∧ ReplyAction.resumeListen ∈ suff) :=
  reply_bracketing ⟨true, 5⟩ 7 "好的" (some "response.mp3") (by decide)

/-- One entry of the rolling conversation history kept by
ConversationManager (conversation_manager.py); the timestamp and optional
command payload play no role in the claims proved here. -/
structure ConvMessage where
  role : String
  content : String
deriving DecidableEq

/-- Embedding of ConversationManager.add_message on a deque with
maxlen = max_history (conversation_manager.py lines 21-38): append and evict
the oldest entries beyond the bound. -/
def addMessage (maxHistory : ℕ) (h : List ConvMessage) (m : ConvMessage) : List ConvMessage :=
  (h ++ [m]).drop ((h ++ [m]).length - maxHistory)

/-- The active-interaction window in seconds (voice_assistant.py line 82). -/
def ACTIVE_WINDOW : ℚ := 30

/-- Outcome of the intent-dispatch section for one utterance: the new
conversation history, response_text, should_reply, and the intent finally
acted upon. -/
structure ArbiterResult where
  history : List ConvMessage
  responseText : String
  shouldReply : Bool
  finalIntent : String
deriving DecidableEq

/-- Embedding of the ignore-intent path of the main loop
(voice_assistant.py lines 116-146 and the chat branch 178-185 it falls into):
is_active is time.time() - last_interaction_time < ACTIVE_WINDOW computed at
line 116; an ignore-classified utterance with is_active and len(text) > 3 is
reclassified as chat, which appends the resolved user text and the generated
reply to the history and sets should_reply; otherwise the utterance is
dropped (continue) with nothing changed.  The parameters text and
resolvedText are the raw recognized text (used for the length test, line 139)
and the pronoun-resolved, LLM-corrected text (used for the history, line
181); chatReply is the chat collaborator's output (line 182). -/
def handleIgnoreIntent (now lastInteractionTime : ℚ) (text resolvedText chatReply : String)
    (history : List ConvMessage) : ArbiterResult :=
  if decide (now - lastInteractionTime < ACTIVE_WINDOW) && decide (3 < text.length) then
    ArbiterResult.mk
      (addMessage 10 (addMessage 10 history ⟨"user", resolvedText⟩) ⟨"assistant", chatReply⟩)
      chatReply true "chat"
  else
    ArbiterResult.mk history "" false "ignore"

/-- Claim C5: an ignore-classified utterance is reclassified and processed as
chat exactly when the activity window is open and the text is longer than 3
characters, producing the chat reply and appending the user text and the
reply to the conversation history; when the window is closed or the text has
at most 3 characters it is dropped with no reply and no history change. -/
theorem arbiter_reclassification (now last : ℚ) (text resolvedText chatReply : String)
    (history : List ConvMessage) :
    (now - last < ACTIVE_WINDOW → 3 < text.length →
      handleIgnoreIntent now last text resolvedText chatReply history
        = ArbiterResult.mk
            (addMessage 10 (addMessage 10 history ⟨"user", resolvedText⟩) ⟨"assistant", chatReply⟩)
            chatReply true "chat")
    ∧ (¬ now - last < ACTIVE_WINDOW ∨ text.length ≤ 3 →
      handleIgnoreIntent now last text resolvedText chatReply history
        = ArbiterResult.mk history "" false "ignore") := by
  constructor
  · intro h1 h2
    simp [handleIgnoreIntent, h1, h2]
  · intro h
    rcases h with h | h
    · simp [handleIgnoreIntent, h]
    · have : ¬ 3 < text.length := not_lt.mpr h
      simp [handleIgnoreIntent, this]

/-- Witness for C5: the utterance "把灯打开吧" (5 characters) 10 seconds after
the last interaction is reclassified to chat with two history appends and the
reply delivered; the same utterance 100 seconds after the last interaction is
dropped unchanged. -/
theorem arbiter_reclassification_witness :
    handleIgnoreIntent 10 0 "把灯打开吧" "把灯打开吧" "好的" []
        = ArbiterResult.mk [⟨"user", "把灯打开吧"⟩, ⟨"assistant", "好的"⟩] "好的" true "chat"
    ∧ handleIgnoreIntent 100 0 "把灯打开吧" "把灯打开吧" "好的" []
        = ArbiterResult.mk [] "" false "ignore" := by
  constructor
  · have h := (arbiter_reclassification 10 0 "把灯打开吧" "把灯打开吧" "好的" []).1
      (by norm_num [ACTIVE_WINDOW]) (by decide)
    rw [h]
    simp [addMessage]
  · have h := (arbiter_reclassification 100 0 "把灯打开吧" "把灯打开吧" "好的" []).2
      (Or.inl (by norm_num [ACTIVE_WINDOW]))
    exact h

/-- A broker message as parsed from one log line: the fields read by
read_messages (local_mqtt_broker.py lines 98-102).  The timestamp is carried
inside the payload record in the source and plays no role here. -/
structure BrokerMessage where
  topic : String
  payload : String
deriving DecidableEq

/-- Byte size of the log file holding the given lines: each line is written
as its UTF-8 bytes plus one newline (local_mqtt_broker.py line 51).  The
model stores lines stripped of the trailing newline, which the source removes
with line.strip() (line 92). -/
def sizeBytes (log : List String) : ℕ := (log.map fun l => l.utf8ByteSize + 1).sum

/-- Lines of the log from the given byte offset to EOF, for offsets at line
boundaries (the only offsets the tailer ever stores: 0 or a previous EOF). -/
def linesFrom : List String → ℕ → List String
  | [], _ => []
  | l :: ls, off => if off = 0 then l :: ls else linesFrom ls (off - (l.utf8ByteSize + 1))

/-- Non-blocking delivery into a bounded queue (local_mqtt_broker.py lines
101-110): put_nowait; on queue.Full, drain the whole queue and insert only
the newest message.  A capacity of 0 models a Python queue with maxsize <= 0,
which is unbounded and never raises Full. -/
def deliverMessage (cap : ℕ) (q : List BrokerMessage) (m : BrokerMessage) : List BrokerMessage :=
  if cap ≠ 0 ∧ cap ≤ q.length then [m] else q ++ [m]

/-- The messages parsed from a list of log lines: empty lines are skipped
(local_mqtt_broker.py line 92) and unparseable lines are skipped (lines
111-112).  The JSON codec is external to the repository, so parsing is a
parameter. -/
def parsedMessages (parse : String → Option BrokerMessage) (lines : List String) :
    List BrokerMessage :=
  lines.filterMap fun l => if l = "" then none else parse l

/-- The parsed messages whose topic is among the subscribed topics
(local_mqtt_broker.py line 100). -/
def matchingMessages (parse : String → Option BrokerMessage) (topics : List String)
    (lines : List String) : List BrokerMessage :=
  (parsedMessages parse lines).filter fun m => decide (m.topic ∈ topics)

/-- Processing of one new line by the tailer (local_mqtt_broker.py lines
96-112): skip blank lines, skip lines that fail to parse, deliver messages
on subscribed topics. -/
def handleLine (parse : String → Option BrokerMessage) (topics : List String) (cap : ℕ)
    (q : List BrokerMessage) (line : String) : List BrokerMessage :=
  if line = "" then q
  else
    match parse line with
    | some m => if m.topic ∈ topics then deliverMessage cap q m else q
    | none => q

/-- Processing of all new lines of one poll cycle, in file order. -/
def processLines (parse : String → Option BrokerMessage) (topics : List String) (cap : ℕ)
    (q : List BrokerMessage) (lines : List String) : List BrokerMessage :=
  lines.foldl (handleLine parse topics cap) q

/-- One poll cycle of LocalMQTTBroker.read_messages (local_mqtt_broker.py
lines 75-115) over the current log contents, stored offset last_position and
current queue contents: if the file shrank below the offset the offset is
reset to 0; if there are bytes past the (possibly reset) offset they are read
to EOF, processed line by line, and the offset advances to EOF. -/
def pollCycle (parse : String → Option BrokerMessage) (topics : List String) (cap : ℕ)
    (log : List String) (offset : ℕ) (q : List BrokerMessage) : ℕ × List BrokerMessage :=
  let size := sizeBytes log
  let off1 := if size < offset then 0 else offset
  if off1 < size then (size, processLines parse topics cap q (linesFrom log off1))
  else (off1, q)

lemma sizeBytes_append (a b : List String) : sizeBytes (a ++ b) = sizeBytes a + sizeBytes b := by
  simp [sizeBytes]

lemma sizeBytes_pos {b : List String} (h : b ≠ []) : 0 < sizeBytes b := by
  cases b with
  | nil => exact absurd rfl h
  | cons x xs => simp [sizeBytes]

lemma sizeBytes_eq_zero {log : List String} (h : sizeBytes log = 0) : log = [] := by
  cases log with
  | nil => rfl
  | cons x xs => simp [sizeBytes] at h

lemma linesFrom_zero (log : List String) : linesFrom log 0 = log := by
  cases log <;> simp [linesFrom]

lemma linesFrom_append (pre suf : List String) :
    linesFrom (pre ++ suf) (sizeBytes pre) = suf := by
  induction pre with
  | nil => simpa [sizeBytes] using linesFrom_zero suf
  | cons p ps ih =>
    have hsz : sizeBytes (p :: ps) = (p.utf8ByteSize + 1) + sizeBytes ps := by
      simp [sizeBytes]
    rw [List.cons_append, hsz, linesFrom]
    rw [if_neg (by omega)]
    simpa using ih

lemma processLines_eq_fold (parse : String → Option BrokerMessage) (topics : List String)
    (cap : ℕ) (q : List BrokerMessage) (lines : List String) :
    processLines parse topics cap q lines
      = (matchingMessages parse topics lines).foldl (deliverMessage cap) q := by
  induction lines generalizing q with
  | nil => simp [processLines, matchingMessages, parsedMessages]
  | cons l ls ih =>
    by_cases hl : l = ""
    · subst hl
      simp only [processLines, List.foldl_cons, handleLine, if_pos rfl]
      rw [← processLines]
      rw [ih]
      simp [matchingMessages, parsedMessages]
    · cases hp : parse l with
      | none =>
        simp only [processLines, List.foldl_cons, handleLine, if_neg hl, hp]
        rw [← processLines, ih]
        simp [matchingMessages, parsedMessages, hl, hp]
      | some m =>
        by_cases ht : m.topic ∈ topics
        · simp only [processLines, List.foldl_cons, handleLine, if_neg hl, hp, if_pos ht]
          rw [← processLines, ih]
          simp [matchingMessages, parsedMessages, hl, hp, ht]
        · simp only [processLines, List.foldl_cons, handleLine, if_neg hl, hp, if_neg ht]
          rw [← processLines, ih]
          simp [matchingMessages, parsedMessages, hl, hp, ht]

lemma foldl_deliver_unbounded (ms : List BrokerMessage) (q : List BrokerMessage) :
    ms.foldl (deliverMessage 0) q = q ++ ms := by
  induction ms generalizing q with
  | nil => simp
  | cons m ms ih =>
    simp only [List.foldl_cons, deliverMessage]
    rw [if_neg (by simp)]
    rw [ih]
    simp

lemma processLines_unbounded (parse : String → Option BrokerMessage) (topics : List String)
    (q : List BrokerMessage) (lines : List String) :
    processLines parse topics 0 q lines = q ++ matchingMessages parse topics lines := by
  rw [processLines_eq_fold, foldl_deliver_unbounded]

/-- Claim C6: across poll cycles the stored byte offset is non-decreasing
except under truncation; a truncated log (current size below the stored
offset) makes the poll restart from offset 0, deliver every matching message
of the current log contents, and advance to the new EOF; when the log grew,
the poll reads exactly the lines from the stored offset to EOF and advances
the offset to the new EOF; and line processing skips malformed (and blank)
lines without failing, delivering exactly the parsed, topic-matching
messages in order. -/
theorem broker_offset_monotonicity (parse : String → Option BrokerMessage)
    (topics : List String) (cap : ℕ) (log pre suf : List String) (offset : ℕ)
    (q : List BrokerMessage) :
    (offset ≤ sizeBytes log → offset ≤ (pollCycle parse topics cap log offset q).1)
    ∧ (sizeBytes log < offset →
        pollCycle parse topics cap log offset q
          = (sizeBytes log, processLines parse topics cap q log))
    ∧ (log = pre ++ suf → offset = sizeBytes pre → suf ≠ [] →
        pollCycle parse topics cap log offset q
          = (sizeBytes log, processLines parse topics cap q suf))
    ∧ (∀ lines start, processLines parse topics cap start lines
          = (matchingMessages parse topics lines).foldl (deliverMessage cap) start) := by
  refine ⟨?_, ?_, ?_, fun lines start => processLines_eq_fold parse topics cap start lines⟩
  · intro hle
    simp only [pollCycle]
    rw [if_neg (not_lt.mpr hle)]
    by_cases h : offset < sizeBytes log
    · rw [if_pos h]; exact le_of_lt h
    · rw [if_neg h]
  · intro hlt
    simp only [pollCycle]
    rw [if_pos hlt]
    by_cases h : (0 : ℕ) < sizeBytes log
    · rw [if_pos h, linesFrom_zero]
    · have hz : sizeBytes log = 0 := by omega
      have : log = [] := sizeBytes_eq_zero hz
      subst this
      simp [processLines, hz]
  · intro hlog hoff hsuf
    subst hlog
    subst hoff
    have h1 : ¬ sizeBytes (pre ++ suf) < sizeBytes pre := by
      rw [sizeBytes_append]; omega
    have h2 : sizeBytes pre < sizeBytes (pre ++ suf) := by
      rw [sizeBytes_append]
      have := sizeBytes_pos hsuf
      omega
    simp only [pollCycle]
    rw [if_neg h1, if_pos h2, linesFrom_append]

/-- Concrete parser used by witnesses: the external JSON codec instantiated
on three known lines. -/
def sampleParse : String → Option BrokerMessage := fun s =>
  if s = "a" then some ⟨"cmd", "1"⟩
  else if s = "b" then some ⟨"cmd", "2"⟩
  else if s = "x" then some ⟨"other", "3"⟩
  else none

/-- Witness for C6: a log of three lines, one of them malformed.  Offset 2
(the EOF after the first line) is not decreased by a poll; a stored offset 9
over a 2-byte log is treated as truncation and the whole log is redelivered;
a grown log is read exactly from the stored offset; and processing is the
fold over the parsed topic-matching messages. -/
theorem broker_offset_monotonicity_witness :
    (sizeBytes ["a"] ≤ (pollCycle sampleParse ["cmd"] 5 ["a", "!", "b"] (sizeBytes ["a"]) []).1)
    ∧ pollCycle sampleParse ["cmd"] 5 ["a"] 9 []
        = (sizeBytes ["a"], processLines sampleParse ["cmd"] 5 [] ["a"])
    ∧ pollCycle sampleParse ["cmd"] 5 ["a", "!", "b"] (sizeBytes ["a"]) []
        = (sizeBytes ["a", "!", "b"], processLines sampleParse ["cmd"] 5 [] ["!", "b"])
    ∧ processLines sampleParse ["cmd"] 5 [] ["a", "!", "b"]
        = (matchingMessages sampleParse ["cmd"] ["a", "!", "b"]).foldl (deliverMessage 5) [] :=
  ⟨((broker_offset_monotonicity sampleParse ["cmd"] 5 ["a", "!", "b"] [] [] (sizeBytes ["a"]) []).1
      (by decide)),
   ((broker_offset_monotonicity sampleParse ["cmd"] 5 ["a"] [] [] 9 []).2.1 (by decide)),
   ((broker_offset_monotonicity sampleParse ["cmd"] 5 ["a", "!", "b"] ["a"] ["!", "b"]
      (sizeBytes ["a"]) []).2.2.1 rfl rfl (by decide)),
   ((broker_offset_monotonicity sampleParse ["cmd"] 5 [] [] [] 0 []).2.2.2 ["a", "!", "b"] [])⟩

/-- Claim C7: delivery into a full bounded queue does not block: the tailer
evicts every queued message and inserts only the newest one, so the next
message retrieved from the (FIFO) queue is the most recently published
matching message. -/
theorem overflow_freshness (cap : ℕ) (q : List BrokerMessage) (m : BrokerMessage)
    (hcap : cap ≠ 0) (hfull : cap ≤ q.length) :
    deliverMessage cap q m = [m] ∧ (deliverMessage cap q m).head? = some m := by
  have h : deliverMessage cap q m = [m] := by
    simp [deliverMessage, hcap, hfull]
  exact ⟨h, by rw [h]; rfl⟩

/-- Witness for C7: a queue of capacity 2 holding two messages receives a
third; both old messages are evicted and the newest is the next retrieved. -/
theorem overflow_freshness_witness :
    deliverMessage 2 [⟨"cmd", "1"⟩, ⟨"cmd", "2"⟩] ⟨"cmd", "3"⟩ = [⟨"cmd", "3"⟩]
    ∧ (deliverMessage 2 [⟨"cmd", "1"⟩, ⟨"cmd", "2"⟩] ⟨"cmd", "3"⟩).head? = some ⟨"cmd", "3"⟩ :=
  overflow_freshness 2 [⟨"cmd", "1"⟩, ⟨"cmd", "2"⟩] ⟨"cmd", "3"⟩ (by decide) (by decide)

/-- A sequence of poll cycles over successive log snapshots (the tailer loop
of read_messages, one pollCycle per iteration). -/
def pollSeq (parse : String → Option BrokerMessage) (topics : List String) (cap : ℕ) :
    List (List String) → ℕ × List BrokerMessage → ℕ × List BrokerMessage
  | [], st => st
  | log :: rest, st => pollSeq parse topics cap rest (pollCycle parse topics cap log st.1 st.2)

/-- Log snapshots of an append-only log: starting from cur, each batch of
lines is appended before the next poll observes the file. -/
def growLogs (cur : List String) : List (List String) → List (List String)
  | [] => []
  | b :: bs => (cur ++ b) :: growLogs (cur ++ b) bs

lemma matchingMessages_append (parse : String → Option BrokerMessage) (topics : List String)
    (x y : List String) :
    matchingMessages parse topics (x ++ y)
      = matchingMessages parse topics x ++ matchingMessages parse topics y := by
  simp [matchingMessages, parsedMessages, List.filterMap_append, List.filter_append]

lemma pollCycle_extend (parse : String → Option BrokerMessage) (topics : List String)
    (cap : ℕ) (cur b : List String) (q : List BrokerMessage) :
    pollCycle parse topics cap (cur ++ b) (sizeBytes cur) q
      = (sizeBytes (cur ++ b), processLines parse topics cap q b) := by
  by_cases hb : b = []
  · subst hb
    simp only [pollCycle, List.append_nil]
    rw [if_neg (lt_irrefl _), if_neg (lt_irrefl _)]
    simp [processLines]
  · have h1 : ¬ sizeBytes (cur ++ b) < sizeBytes cur := by
      rw [sizeBytes_append]; omega
    have h2 : sizeBytes cur < sizeBytes (cur ++ b) := by
      rw [sizeBytes_append]
      have := sizeBytes_pos hb
      omega
    simp only [pollCycle]
    rw [if_neg h1, if_pos h2, linesFrom_append]

lemma pollSeq_growing (parse : String → Option BrokerMessage) (topics : List String)
    (batches : List (List String)) (cur : List String) (q : List BrokerMessage) :
    pollSeq parse topics 0 (growLogs cur batches) (sizeBytes cur, q)
      = (sizeBytes (cur ++ batches.flatten), q ++ matchingMessages parse topics batches.flatten) := by
  induction batches generalizing cur q with
  | nil => simp [growLogs, pollSeq, matchingMessages, parsedMessages]
  | cons b bs ih =>
    show pollSeq parse topics 0 ((cur ++ b) :: growLogs (cur ++ b) bs) (sizeBytes cur, q) = _
    rw [pollSeq]
    rw [pollCycle_extend, processLines_unbounded]
    rw [ih (cur ++ b) (q ++ matchingMessages parse topics b)]
    rw [List.flatten_cons, matchingMessages_append]
    simp [List.append_assoc]

/-- Claim C8: a tailing subscriber that starts at offset 0 with an empty,
never-overflowing queue (capacity 0 models an unbounded Python queue, which
never raises Full) receives, across any sequence of polls of the append-only
log, exactly the parsed topic-matching messages of everything published, in
file-append order; this delivered sequence is an order-preserving subsequence
(Sublist) of the full published message sequence. -/
theorem broker_publish_order (parse : String → Option BrokerMessage) (topics : List String)
    (batches : List (List String)) :
    (pollSeq parse topics 0 (growLogs [] batches) (0, [])).2
        = matchingMessages parse topics batches.flatten
    ∧ List.Sublist (matchingMessages parse topics batches.flatten)
        (parsedMessages parse batches.flatten) := by
  constructor
  · have h := pollSeq_growing parse topics batches [] []
    have h0 : sizeBytes ([] : List String) = 0 := rfl
    rw [h0] at h
    rw [h]
    simp
  · exact List.filter_sublist _

/-- One device's record in DeviceState.devices: a Python dict from field
names to values, where a value may be None (device_state.py lines 14-19).
Modelled as an association list preserving insertion order. -/
abbrev DevEntry := List (String × Option String)

/-- The DeviceState.devices dict: device type to record. -/
abbrev DeviceMap := List (String × DevEntry)

/-- DeviceState.__init__ (device_state.py lines 12-19). -/
def initialDevices : DeviceMap :=
  [("light", [("state", some "off"), ("last_action", none), ("last_update", none)]),
   ("ac", [("state", some "off"), ("last_action", none), ("last_update", none)]),
   ("window", [("state", some "closed"), ("last_action", none), ("last_update", none)]),
   ("temperature", [("last_check", none), ("last_value", none)])]

/-- Python dict item assignment on a record: replace the value of an
existing key in place, else append the new key. -/
def setField : DevEntry → String → Option String → DevEntry
  | [], k, v => [(k, v)]
  | (k0, v0) :: rest, k, v =>
    if k0 = k then (k0, v) :: rest else (k0, v0) :: setField rest k v

/-- The record mutation performed by DeviceState.update_state once the type
is known to be a device key (device_state.py lines 34-53): temperature only
records last_check; other devices set state for the actions 开 and 关 (window
uses open/closed, others on/off), leave state alone for any other action, and
always overwrite last_action and last_update. -/
def updateEntry (t : String) (action : Option String) (now : String) (e : DevEntry) : DevEntry :=
  if t = "temperature" then setField e "last_check" (some now)
  else
    let e1 :=
      if action = some "开" then
        setField e "state" (some (if t = "window" then "open" else "on"))
      else if action = some "关" then
        setField e "state" (some (if t = "window" then "closed" else "off"))
      else e
    setField (setField e1 "last_action" action) "last_update" (some now)

/-- Embedding of DeviceState.update_state (device_state.py lines 21-53):
command.get("type") and command.get("action") may be absent (None); an
unknown or absent type returns with no change. -/
def updateState (now : String) (cmdType cmdAction : Option String) (devs : DeviceMap) :
    DeviceMap :=
  match cmdType with
  | none => devs
  | some t =>
    if (devs.lookup t).isSome then
      devs.map fun p => if p.1 = t then (p.1, updateEntry t cmdAction now p.2) else p
    else devs

lemma lookup_setField_self (e : DevEntry) (k : String) (v : Option String) :
    (setField e k v).lookup k = some v := by
  induction e with
  | nil => simp [setField, List.lookup]
  | cons p rest ih =>
    obtain ⟨k0, v0⟩ := p
    by_cases h : k0 = k
    · subst h
      simp [setField, List.lookup]
    · have hb : (k == k0) = false := beq_eq_false_iff_ne.mpr (Ne.symm h)
      simp [setField, h, List.lookup, hb, ih]

lemma lookup_setField_other (e : DevEntry) (k k2 : String) (v : Option String)
    (h : k2 ≠ k) : (setField e k v).lookup k2 = e.lookup k2 := by
  induction e with
  | nil =>
    have hb : (k2 == k) = false := beq_eq_false_iff_ne.mpr h
    simp [setField, List.lookup, hb]
  | cons p rest ih =>
    obtain ⟨k0, v0⟩ := p
    by_cases hk : k0 = k
    · subst hk
      have hb : (k2 == k0) = false := beq_eq_false_iff_ne.mpr h
      simp [setField, List.lookup, hb]
    · by_cases h2 : k2 = k0
      · subst h2
        simp [setField, hk, List.lookup]
      · have hb : (k2 == k0) = false := beq_eq_false_iff_ne.mpr h2
        simp [setField, hk, List.lookup, hb, ih]

lemma lookup_map_update (devs : DeviceMap) (t : String) (f : DevEntry → DevEntry) :
    (devs.map fun p => if p.1 = t then (p.1, f p.2) else p).lookup t
      = (devs.lookup t).map f := by
  induction devs with
  | nil => simp
  | cons p rest ih =>
    obtain ⟨k0, e0⟩ := p
    by_cases h : k0 = t
    · subst h
      rw [List.map_cons,
        show (if (k0, e0).1 = k0 then ((k0, e0).1, f (k0, e0).2) else (k0, e0)) = (k0, f e0)
          from by simp]
      simp [List.lookup]
    · have hb : (t == k0) = false := beq_eq_false_iff_ne.mpr (Ne.symm h)
      rw [List.map_cons,
        show (if (k0, e0).1 = t then ((k0, e0).1, f (k0, e0).2) else (k0, e0)) = (k0, e0)
          from by simp [h]]
      simp [List.lookup, hb, ih]

lemma map_fst_update (devs : DeviceMap) (t : String) (f : DevEntry → DevEntry) :
    ((devs.map fun p => if p.1 = t then (p.1, f p.2) else p).map Prod.fst)
      = devs.map Prod.fst := by
  rw [List.map_map]
  apply List.map_congr_left
  intro p _
  by_cases h : p.1 = t <;> simp [Function.comp, h]

/-- Claim C10: update_state leaves the whole store unchanged for an absent or
unknown command type; for a known non-temperature type whose action is
neither 开 nor 关 it leaves the device's state field unchanged while
overwriting last_action (with the command's action, possibly None) and
last_update (with the current time); and no call adds or removes device
keys. -/
theorem update_state_frame (now : String) (t : String) (a : Option String)
    (devs : DeviceMap) :
    updateState now none a devs = devs
    ∧ (devs.lookup t = none → updateState now (some t) a devs = devs)
    ∧ (∀ e, devs.lookup t = some e → t ≠ "temperature" → a ≠ some "开" → a ≠ some "关" →
        (updateState now (some t) a devs).lookup t
            = some (setField (setField e "last_action" a) "last_update" (some now))
        ∧ (setField (setField e "last_action" a) "last_update" (some now)).lookup "state"
            = e.lookup "state"
        ∧ (setField (setField e "last_action" a) "last_update" (some now)).lookup "last_action"
            = some a
        ∧ (setField (setField e "last_action" a) "last_update" (some now)).lookup "last_update"
            = some (some now))
    ∧ (∀ ct : Option String, (updateState now ct a devs).map Prod.fst = devs.map Prod.fst) := by
  refine ⟨rfl, ?_, ?_, ?_⟩
  · intro h
    simp [updateState, h]
  · intro e he ht h1 h2
    have hup : updateEntry t a now e
        = setField (setField e "last_action" a) "last_update" (some now) := by
      simp [updateEntry, ht, h1, h2]
    refine ⟨?_, ?_, ?_, ?_⟩
    · have hsome : (devs.lookup t).isSome := by rw [he]; rfl
      simp only [updateState, if_pos hsome]
      rw [lookup_map_update, he]
      simp [hup]
    · rw [lookup_setField_other _ _ _ _ (by decide),
        lookup_setField_other _ _ _ _ (by decide)]
    · rw [lookup_setField_other _ _ _ _ (by decide), lookup_setField_self]
    · rw [lookup_setField_self]
  · intro ct
    cases ct with
    | none => rfl
    | some t2 =>
      by_cases h : (devs.lookup t2).isSome
      · simp only [updateState, if_pos h]
        exact map_fst_update devs t2 _
      · simp [updateState, h]

/-- Witness for C10: an unknown device type leaves the initial store intact,
and a light command with the unknown action 调暗 keeps state off while
overwriting last_action and last_update. -/
theorem update_state_frame_witness :
    updateState "T1" (some "fan") (some "开") initialDevices = initialDevices
    ∧ (updateState "T1" (some "light") (some "调暗") initialDevices).lookup "light"
        = some [("state", some "off"), ("last_action", some "调暗"), ("last_update", some "T1")] := by
  constructor
  · exact (update_state_frame "T1" "fan" (some "开") initialDevices).2.1 (by decide)
  · have h := ((update_state_frame "T1" "light" (some "调暗") initialDevices).2.2.1
      [("state", some "off"), ("last_action", none), ("last_update", none)]
      (by decide) (by decide) (by decide) (by decide)).1
    rw [h]
    decide

/-- Embedding of LocalMQTTBroker.publish (local_mqtt_broker.py lines 40-67):
append the serialized message line to the log and flush; if the file write
raises, the error is caught and publish returns False with the log unchanged,
otherwise publish returns True.  writeOk models whether the append+flush
succeeded; the same-process fast-path notification does not affect the return
value. -/
def brokerPublish (log : List String) (line : String) (writeOk : Bool) :
    List String × Bool :=
  if writeOk then (log ++ [line], true) else (log, false)

/-- Embedding of MQTTClient.send_command on the default local-broker path
(mqtt_client.py lines 95-128, USE_LOCAL_BROKER true so connect() always
succeeds and self.connected is true): the serialized command is handed to
broker.publish, whose return value is discarded, and send_command returns
True unconditionally (lines 124-128). -/
def sendCommandLocal (log : List String) (payload : String) (writeOk : Bool) :
    Bool × List String :=
  let r := brokerPublish log payload writeOk
  (true, r.1)

/-- The command branch of the main loop (voice_assistant.py lines 160-166):
send_command is called; on a True result device_state.update_state runs and
a success reply is produced, on False the state store is left alone. -/
def mainCommandBranch (devs : DeviceMap) (now : String) (ct ca : Option String)
    (log : List String) (payload : String) (writeOk : Bool) : Bool × DeviceMap :=
  if (sendCommandLocal log payload writeOk).1 then
    (true, updateState now ct ca devs)
  else (false, devs)

/-- Claim C2 (contradicted by the code on its default path): the claim says a
failed publish is reported as False from send_command and leaves the device
state unchanged.  On the default local-broker path, publish reports the
failed file append by returning False, but send_command discards that return
value and returns True (mqtt_client.py line 125 ignores the result of
broker.publish and line 128 returns True), so the main loop goes on to update
the device-state store.  This theorem evaluates the code at the failing
input: a command dispatched while the log file append raises. -/
theorem send_command_swallows_publish_failure :
    (brokerPublish [] "cmd" false).2 = false
    ∧ (sendCommandLocal [] "cmd" false).1 = true
    ∧ (mainCommandBranch initialDevices "T1" (some "light") (some "开") [] "cmd" false).2
        ≠ initialDevices := by
  refine ⟨rfl, rfl, ?_⟩
  decide

end SmartHome
